import Mathlib

/-!
openvpn-auth-oauth2: the OpenVPN management-interface client.

A shallow embedding of `internal/openvpn/main.go`.

* Go `string` / `[]byte` values are lists of byte values (`Bytes`).
* Buffered Go channels are explicit records (buffer, capacity, closed flag);
  an operation on them either returns, blocks, or panics (`Exec`).
* The logger and the calls into code that lives in other files
  (`DenyClient`) are recorded as effects.
-/

namespace OpenVPN

/-! ## Byte strings and the `strings` / `bytes` helpers the client uses -/

/-- A Go `string` or `[]byte`: a sequence of byte values. Every list of naturals is
admitted, so what is proved for all `Bytes` holds for all byte strings. -/
abbrev Bytes := List Nat

/-- The bytes of an ASCII literal. -/
def lit (s : String) : Bytes := s.toList.map Char.toNat

/-- The byte `'\n'`. -/
def NL : Nat := 10

/-- Go `strings.HasPrefix` / `bytes.HasPrefix`. -/
def HasPrefix (s p : Bytes) : Bool := p.isPrefixOf s

/-- The search loop of `Index`: the first offset at or after `i` where `sep` starts. -/
def indexFrom (sep : Bytes) : Bytes → Nat → Int
  | [], i => if sep = [] then (i : Int) else -1
  | b :: rest, i => if sep.isPrefixOf (b :: rest) then (i : Int) else indexFrom sep rest (i + 1)

/-- Go `strings.Index` / `bytes.Index`: offset of the first occurrence of `sep` in `s`, or -1. -/
def Index (s sep : Bytes) : Int := indexFrom sep s 0

/-- Go `strings.Contains`. -/
def Contains (s sub : Bytes) : Bool := decide (0 ≤ Index s sub)

/-! ## Errors -/

/-- The package's sentinel errors (declared outside `main.go`) and `strconv.ErrSyntax` / `ErrRange`. -/
inductive Sentinel where
  | ErrEmptyResponse
  | ErrTimeout
  | ErrErrorResponse
  | ErrUnknownProtocol
  | ErrSyntax
  | ErrRange
  deriving DecidableEq, Repr

/-- A Go `error` value as the client builds it. -/
inductive GoError where
  /-- a sentinel error value -/
  | sentinel (s : Sentinel)
  /-- the result of `errors.New(text)` or of `fmt.Errorf` without `%w` -/
  | new (text : Bytes)
  /-- the result of `fmt.Errorf("<pre>%w<post>", inner)`: formatted text before and after the wrapped error -/
  | wrap (pre : Bytes) (inner : GoError) (post : Bytes)
  /-- a `*strconv.NumError` with its `Func`, `Num` and `Err` fields -/
  | numError (fn num : Bytes) (err : GoError)
  deriving DecidableEq, Repr

/-- Go `errors.Is(e, s)` for a sentinel `s`: follows the `Unwrap` chain. -/
def GoError.Is : GoError → Sentinel → Bool
  | .sentinel t, s => decide (t = s)
  | .new _, _ => false
  | .wrap _ inner _, s => inner.Is s
  | .numError _ _ err, s => err.Is s

/-- The texts this file does not fix: the sentinels' messages and `strconv.Quote`. -/
structure ErrorText where
  sentinel : Sentinel → Bytes
  quote : Bytes → Bytes

/-- Go `e.Error()`. -/
def GoError.Error (t : ErrorText) : GoError → Bytes
  | .sentinel s => t.sentinel s
  | .new text => text
  | .wrap pre inner post => pre ++ inner.Error t ++ post
  | .numError fn num err => lit "strconv." ++ fn ++ lit ": parsing " ++ t.quote num ++ lit ": " ++ err.Error t

/-! ## Execution outcomes and channels -/

/-- What running a piece of Go code does: it returns a value, blocks forever
in the given state, or panics. -/
inductive Exec (α : Type) where
  | ret (a : α)
  | blocks
  | panics
  deriving DecidableEq, Repr

/-- Sequencing of `Exec`. -/
def Exec.bind {α β : Type} (x : Exec α) (f : α → Exec β) : Exec β :=
  match x with
  | .ret a => f a
  | .blocks => .blocks
  | .panics => .panics

/-- The outcome with `f` applied to the returned value. -/
def Exec.map {α β : Type} (f : α → β) (x : Exec α) : Exec β :=
  x.bind fun a => .ret (f a)

/-- A buffered Go channel made by `make(chan T, cap)`. -/
structure Chan (α : Type) where
  buf : List α
  cap : Nat
  closed : Bool
  deriving DecidableEq, Repr

/-- The channel `make(chan T, cap)`. -/
def Chan.make (α : Type) (cap : Nat) : Chan α := { buf := [], cap := cap, closed := false }

/-- The statement `ch <- v` with no receiver parked on the channel: panics on a closed
channel, appends when the buffer has room, blocks when it is full. -/
def Chan.send {α : Type} (ch : Chan α) (v : α) : Exec (Chan α) :=
  if ch.closed then .panics
  else if ch.buf.length < ch.cap then .ret { ch with buf := ch.buf ++ [v] }
  else .blocks

/-- The builtin `close(ch)`: panics on a channel that is already closed. -/
def Chan.close {α : Type} (ch : Chan α) : Exec (Chan α) :=
  if ch.closed then .panics else .ret { ch with closed := true }

/-! ## Line reader -/

/-- The `bufio.Scanner` in line mode, as `readMessage` sees it: the lines it will still
deliver, and the error `Err()` reports once they are exhausted. -/
structure Scanner where
  lines : List Bytes
  err : Option GoError
  deriving DecidableEq, Repr

/-- The function `isMessageLineEOF`. -/
def isMessageLineEOF (line : Bytes) : Bool :=
  HasPrefix line (lit ">CLIENT:ENV,END") ||
  decide (Index line (lit "END") = 0) ||
  decide (Index line (lit "SUCCESS:") = 0) ||
  decide (Index line (lit "ERROR:") = 0) ||
  HasPrefix line (lit ">HOLD:") ||
  HasPrefix line (lit ">INFO:") ||
  HasPrefix line (lit ">NOTIFY:") ||
  HasPrefix line (lit ":OpenVPN")

/-- The loop of `readMessage`, with the buffer written so far. -/
def readMessageLoop : List Bytes → Option GoError → Bytes → (Bytes × Option GoError) × Scanner
  | [], err, _ =>
    match err with
    | some e => (([], some (.wrap (lit "readMessage: scanner error: ") e [])), ⟨[], err⟩)
    | none => (([], none), ⟨[], err⟩)
  | line :: rest, err, buf =>
    let buf := buf ++ line ++ [NL]
    if isMessageLineEOF line then ((buf, none), ⟨rest, err⟩)
    else readMessageLoop rest err buf

/-- The method `readMessage`: the returned `(string, error)` and the scanner afterwards.
`bytes.Buffer` writes return a nil error, so the two write-error branches are never taken;
the debug log line does not enter the result. -/
def readMessage (sc : Scanner) : (Bytes × Option GoError) × Scanner :=
  readMessageLoop sc.lines sc.err []

/-- The prefixes `isMessageLineEOF` looks for. -/
def terminatorPrefixes : List Bytes :=
  [lit ">CLIENT:ENV,END", lit "END", lit "SUCCESS:", lit "ERROR:",
   lit ">HOLD:", lit ">INFO:", lit ">NOTIFY:", lit ":OpenVPN"]

/-- Every line followed by `"\n"`, concatenated. -/
def joinLines (ls : List Bytes) : Bytes := (ls.map (fun l => l ++ [NL])).flatten

/-! ## More string helpers -/

/-- The cutting loop of `genSplit` for a one-byte separator: `k` cuts are still allowed,
`cur` is the piece being read. -/
def splitLoop (sep : Nat) : Bytes → Option Nat → Bytes → List Bytes
  | [], _, cur => [cur]
  | b :: rest, k, cur =>
    if k = some 0 then [cur ++ b :: rest]
    else if b = sep then cur :: splitLoop sep rest (k.map (· - 1)) []
    else splitLoop sep rest k (cur ++ [b])

/-- Go `strings.SplitN(s, sep, n)` for a one-byte separator `sep`: `n = 0` gives no piece,
`n < 0` every piece, `n > 0` at most `n` pieces, the last one being the unsplit rest. -/
def SplitN (s : Bytes) (sep : Nat) (n : Int) : List Bytes :=
  if n = 0 then []
  else if n < 0 then splitLoop sep s none []
  else splitLoop sep s (some (n.toNat - 1)) []

/-- Go `strings.Split(s, sep)`, which is `genSplit(s, sep, 0, -1)`. -/
def Split (s : Bytes) (sep : Nat) : List Bytes := SplitN s sep (-1)

/-- The index expression `xs[i]`: panics out of range. -/
def indexAt {α : Type} (xs : List α) (i : Nat) : Exec α :=
  match xs.get? i with
  | some x => .ret x
  | none => .panics

/-- The slice expression `s[lo:]`: panics unless `0 ≤ lo ≤ len(s)`. -/
def sliceFrom (s : Bytes) (lo : Int) : Exec Bytes :=
  if lo < 0 ∨ (s.length : Int) < lo then .panics else .ret (s.drop lo.toNat)

/-- An ASCII decimal digit. -/
def isDigit (b : Nat) : Bool := decide (48 ≤ b) && decide (b ≤ 57)

/-- The digit loop of `strconv.ParseUint(s, 10, 64)`. -/
def parseUintLoop : Bytes → Nat → Except Sentinel Nat
  | [], n => .ok n
  | ch :: rest, n =>
    if !isDigit ch then .error .ErrSyntax
    else if (2 ^ 64 - 1) / 10 + 1 ≤ n then .error .ErrRange
    else if 2 ^ 64 - 1 < n * 10 + (ch - 48) then .error .ErrRange
    else parseUintLoop rest (n * 10 + (ch - 48))

/-- Go `strconv.Atoi` with a 64-bit `int`. -/
def Atoi (s : Bytes) : Except GoError Int :=
  let neg : Bool := decide (s.head? = some 45)
  let digits : Bytes :=
    match s with
    | 43 :: r => r
    | 45 :: r => r
    | _ => s
  if digits = [] then .error (.numError (lit "Atoi") s (.sentinel .ErrSyntax))
  else
    match parseUintLoop digits 0 with
    | .error e => .error (.numError (lit "Atoi") s (.sentinel e))
    | .ok un =>
      if !neg && decide (2 ^ 63 ≤ un) then .error (.numError (lit "Atoi") s (.sentinel .ErrRange))
      else if neg && decide (2 ^ 63 < un) then .error (.numError (lit "Atoi") s (.sentinel .ErrRange))
      else .ok (if neg then -(un : Int) else (un : Int))

/-! ## The client -/

/-- The type `state.ClientIdentifier` (declared in another package): the pair that
addresses a session. -/
structure ClientIdentifier where
  Cid : Nat
  Kid : Nat
  deriving DecidableEq, Repr

/-- The fields of `connection.Client` (declared in another package) that this file reads. -/
structure ConnectionClient where
  Cid : Nat
  Kid : Nat
  IvSSO : Bytes
  deriving DecidableEq, Repr

/-- Log levels of `slog` used here. -/
inductive Level where
  | info
  | warn
  deriving DecidableEq, Repr

/-- What the client does to the world outside this file. -/
inductive Effect where
  /-- a line handed to a logger -/
  | log (level : Level) (msg : Bytes)
  /-- a call `c.DenyClient(logger, id, reason)`; `DenyClient` lives in another file -/
  | denyClient (id : ClientIdentifier) (reason : Bytes)
  deriving DecidableEq, Repr

/-- The struct `Client`: the fields the methods below touch. `connCloses` counts the
calls of `c.conn.Close()` made by `close`, `commandsChCloses` the executions of
`close(c.commandsCh)`, and `effects` is the trace of log lines and outgoing calls. -/
structure Client where
  closed : Bool
  connCloses : Nat
  commandsChCloses : Nat
  errCh : Chan (Option GoError)
  clientsCh : Chan ConnectionClient
  commandResponseCh : Chan Bytes
  commandsCh : Chan Bytes
  shutdownCh : Chan Unit
  effects : List Effect
  deriving DecidableEq, Repr

/-- The constructor `NewClient`. -/
def NewClient : Client :=
  { closed := false
    connCloses := 0
    commandsChCloses := 0
    errCh := Chan.make (Option GoError) 1
    clientsCh := Chan.make ConnectionClient 10
    commandResponseCh := Chan.make Bytes 10
    commandsCh := Chan.make Bytes 10
    shutdownCh := Chan.make Unit 1
    effects := [] }

/-- The expression `strings.SplitN(cmd, "\n", 2)[0]`. -/
def cmdFirstLine (cmd : Bytes) : Exec Bytes := indexAt (SplitN cmd NL 2) 0

/-- What the `select` of `SendCommand` receives from `commandResponseCh`: a buffered value
at once; the zero value from a closed, drained channel; otherwise `arrival`, the value the
message pump delivers before the 10 second timer fires (`none` when the timer fires first). -/
def selectResponse (ch : Chan Bytes) (arrival : Option Bytes) : Option Bytes × Chan Bytes :=
  match ch.buf with
  | r :: rest => (some r, { ch with buf := rest })
  | [] => if ch.closed then (some [], ch) else (arrival, ch)

/-- The `select` statement of `SendCommand` and what follows it. -/
def sendCommandSelect (c : Client) (cmd : Bytes) (arrival : Option Bytes) :
    Exec (Client × Bytes × Option GoError) :=
  match selectResponse c.commandResponseCh arrival with
  | (some resp, ch) =>
    let c : Client := { c with commandResponseCh := ch }
    if resp = [] then
      (cmdFirstLine cmd).bind fun first =>
        .ret (c, [], some (.wrap (lit "command error \x27" ++ first ++ lit "\x27: ")
          (.sentinel .ErrEmptyResponse) []))
    else if HasPrefix resp (lit "ERROR:") then
      (cmdFirstLine cmd).bind fun first =>
        .ret ({ c with effects := c.effects ++
          [.log .warn (lit "command error \x27" ++ first ++ lit "\x27: " ++ resp)] }, resp, none)
    else .ret (c, resp, none)
  | (none, ch) =>
    let c : Client := { c with commandResponseCh := ch }
    (cmdFirstLine cmd).bind fun first =>
      .ret (c, [], some (.wrap (lit "command error \x27" ++ first ++ lit "\x27: ")
        (.sentinel .ErrTimeout) []))

/-- The method `SendCommand`: the send on `commandsCh`, then the `select`. -/
def SendCommand (c : Client) (cmd : Bytes) (arrival : Option Bytes) :
    Exec (Client × Bytes × Option GoError) :=
  (c.commandsCh.send (cmd ++ lit "\n")).bind fun q =>
    sendCommandSelect { c with commandsCh := q } cmd arrival

/-- The method `checkManagementInterfaceVersion`; `arrival` is passed to the `SendCommand`
it starts with. -/
def checkManagementInterfaceVersion (c : Client) (arrival : Option Bytes) :
    Exec (Client × Option GoError) :=
  (SendCommand c (lit "version") arrival).bind fun (c, resp, err) =>
    match err with
    | some e => .ret (c, some (.wrap (lit "error from version command: ") e []))
    | none =>
      if !HasPrefix resp (lit "OpenVPN Version: ") then
        .ret (c, some (.wrap (lit "error from version command: ")
          (.sentinel .ErrErrorResponse) (lit ": " ++ resp)))
      else
        let versionParts := Split resp NL
        if versionParts.length ≠ 4 then
          .ret (c, some (.new (lit "unexpected response from version command: " ++ resp)))
        else
          (indexAt versionParts 0).bind fun part0 =>
          (indexAt versionParts 1).bind fun part1 =>
          let c : Client := { c with effects := c.effects ++ [.log .info (part0 ++ lit " - " ++ part1)] }
          (sliceFrom part1 ((part1.length : Int) - 1)).bind fun last =>
          match Atoi last with
          | .error e =>
            .ret (c, some (.wrap (lit "unable to parse openvpn management interface version: ") e []))
          | .ok managementInterfaceVersion =>
            if managementInterfaceVersion < 5 then
              .ret (c, some (.new (lit
                "openvpn-auth-oauth2 requires OpenVPN management interface version 5 or higher")))
            else .ret (c, none)

/-- The reason `checkClientSsoCapabilities` denies with. -/
def errorSsoNotSupported : Bytes :=
  lit "OpenVPN Client does not support SSO authentication via webauth"

/-- The method `checkClientSsoCapabilities`: its result and the client with the effects added. -/
def checkClientSsoCapabilities (c : Client) (client : ConnectionClient) : Bool × Client :=
  if Contains client.IvSSO (lit "webauth") then (true, c)
  else
    (false, { c with effects := c.effects ++
      [.log .warn errorSsoNotSupported,
       .denyClient { Cid := client.Cid, Kid := client.Kid } errorSsoNotSupported] })

/-- The `DenyClient` calls in a trace of effects, in order. -/
def denyCalls : List Effect → List (ClientIdentifier × Bytes)
  | [] => []
  | .denyClient id reason :: rest => (id, reason) :: denyCalls rest
  | .log _ _ :: rest => denyCalls rest

/-- The method `Shutdown`, run with the mutex free. -/
def Shutdown (c : Client) : Exec Client :=
  if !c.closed then
    let c : Client := { c with effects := c.effects ++
      [.log .info (lit "shutdown OpenVPN management connection")] }
    (c.shutdownCh.send ()).bind fun ch => .ret { c with shutdownCh := ch }
  else .ret c

/-- The method `close`, run with the mutex free. -/
def close (c : Client) : Exec Client :=
  if !c.closed then
    let c : Client := { c with closed := true, connCloses := c.connCloses + 1 }
    (c.commandsCh.close).bind fun q =>
      .ret { c with commandsCh := q, commandsChCloses := c.commandsChCloses + 1 }
  else .ret c

/-! ## Sequences of lifecycle calls -/

/-- A call of one of the two lifecycle methods. -/
inductive Call where
  | callClose
  | callShutdown
  deriving DecidableEq, Repr

/-- Runs the calls one after the other; each holds the mutex for its whole body, so a call
that blocks keeps every later call from running. -/
def runCalls : List Call → Client → Exec Client
  | [], c => .ret c
  | .callClose :: rest, c => (close c).bind (runCalls rest)
  | .callShutdown :: rest, c => (Shutdown c).bind (runCalls rest)

/-- What holds of the lifecycle fields in every state the calls reach from `NewClient`: the
outbound queue is closed exactly when the closed flag is set, the shutdown channel has
capacity 1 and is never closed, and the transport and the queue have been closed once when
the flag is set and not at all before. -/
def LifecycleInv (c : Client) : Prop :=
  c.commandsCh.closed = c.closed ∧ c.shutdownCh.cap = 1 ∧ c.shutdownCh.closed = false ∧
  c.connCloses = (if c.closed then 1 else 0) ∧ c.commandsChCloses = (if c.closed then 1 else 0)

/-- The calls made before the first `close()`. -/
def beforeFirstClose (calls : List Call) : List Call :=
  calls.takeWhile (fun x => decide (x ≠ .callClose))

/-! ## Concurrent callers of `SendCommand` -/

/-- Where a caller of `SendCommand` stands. -/
inductive Phase where
  /-- not in a call -/
  | idle
  /-- past the send on `commandsCh`, waiting in the `select` -/
  | waiting (cmd : Bytes)
  /-- the call has returned -/
  | resolved (resp : Bytes) (err : Option GoError)
  deriving DecidableEq, Repr

/-- The client together with its concurrent callers. -/
structure System where
  client : Client
  callers : List Phase
  deriving DecidableEq, Repr

/-- The atomic steps of the system. -/
inductive Action where
  /-- caller `i` starts `SendCommand(cmd)` and performs the send on `commandsCh` -/
  | enqueue (i : Nat) (cmd : Bytes)
  /-- a response `r` is put on `commandResponseCh` -/
  | respond (r : Bytes)
  /-- the `select` of caller `i` fires: it receives the buffered response, or times out -/
  | resolve (i : Nat)
  /-- the writer loop takes the oldest command off `commandsCh` -/
  | writerTake
  deriving DecidableEq, Repr

/-- A caller that is inside `SendCommand`, between its send and its `select`. -/
def Phase.isWaiting : Phase → Bool
  | .waiting _ => true
  | _ => false

/-- The number of callers that have enqueued a command and not yet resolved. -/
def System.pending (s : System) : Nat := s.callers.countP Phase.isWaiting

/-- One step; `none` when the action is not enabled in `s`. -/
def step (s : System) : Action → Option System
  | .enqueue i cmd =>
    match s.callers.get? i with
    | some (.waiting _) => none
    | some _ =>
      match s.client.commandsCh.send (cmd ++ lit "\n") with
      | .ret q =>
        some { client := { s.client with commandsCh := q }, callers := s.callers.set i (.waiting cmd) }
      | _ => none
    | none => none
  | .respond r =>
    match s.client.commandResponseCh.send r with
    | .ret ch => some { s with client := { s.client with commandResponseCh := ch } }
    | _ => none
  | .resolve i =>
    match s.callers.get? i with
    | some (.waiting cmd) =>
      match sendCommandSelect s.client cmd none with
      | .ret (c, resp, err) => some { client := c, callers := s.callers.set i (.resolved resp err) }
      | _ => none
    | _ => none
  | .writerTake =>
    match s.client.commandsCh.buf with
    | _ :: rest =>
      some { s with client := { s.client with commandsCh := { s.client.commandsCh with buf := rest } } }
    | [] => none

/-- Runs a schedule of actions. -/
def run : List Action → System → Option System
  | [], s => some s
  | a :: rest, s => (step s a).bind (run rest)

/-- A fresh client with `n` callers, none of them in a call. -/
def System.init (n : Nat) : System := { client := NewClient, callers := List.replicate n .idle }

/-- The states some schedule reaches from a fresh client. -/
def Reachable (s : System) : Prop := ∃ n acts, run acts (System.init n) = some s

/-- Both command channels still have the capacity `NewClient` gave them and hold no more
than that. -/
def ChannelsBounded (s : System) : Prop :=
  s.client.commandsCh.cap = 10 ∧ s.client.commandResponseCh.cap = 10 ∧
  s.client.commandsCh.buf.length ≤ 10 ∧ s.client.commandResponseCh.buf.length ≤ 10

/-- Two callers on a fresh client, the first of which has enqueued `status`. -/
def oneWaiting : System :=
  { client := { NewClient with commandsCh := { NewClient.commandsCh with buf := [lit "status\n"] } }
    callers := [.waiting (lit "status"), .idle] }

/-! ## Client event blocks -/

/-- The line `>CLIENT:ENV,k=v`. -/
def envLine (kv : Bytes × Bytes) : Bytes := lit ">CLIENT:ENV," ++ kv.1 ++ lit "=" ++ kv.2

/-- The lines of a client event block: the `CONNECT` (or `REAUTH`) line, one line per
attribute, and the line `>CLIENT:ENV,END`. -/
def clientBlock (reauth : Bool) (cid kid : Bytes) (env : List (Bytes × Bytes)) : List Bytes :=
  ((if reauth then lit ">CLIENT:REAUTH," else lit ">CLIENT:CONNECT,") ++ cid ++ lit "," ++ kid)
    :: (env.map envLine ++ [lit ">CLIENT:ENV,END"])

/-- The command `cmd` has `line` as its first line. -/
def HasFirstLine (cmd line : Bytes) : Prop :=
  NL ∉ line ∧ (cmd = line ∨ ∃ rest, cmd = line ++ NL :: rest)

/-! ## Facts about the string helpers -/

theorem HasPrefix_iff (s p : Bytes) : HasPrefix s p = true ↔ p <+: s := by
  unfold HasPrefix
  exact List.isPrefixOf_iff_prefix

theorem indexFrom_bound (sep : Bytes) (s : Bytes) (i : Nat) :
    indexFrom sep s i = -1 ∨ (i : Int) ≤ indexFrom sep s i := by
  induction s generalizing i with
  | nil =>
    unfold indexFrom
    split <;> simp
  | cons b rest ih =>
    unfold indexFrom
    split
    · right; exact le_refl _
    · rcases ih (i + 1) with h | h
      · left; exact h
      · right; push_cast at h; omega

theorem indexFrom_eq_start (sep : Bytes) (s : Bytes) (i : Nat) :
    indexFrom sep s i = (i : Int) ↔ sep <+: s := by
  cases s with
  | nil =>
    unfold indexFrom
    by_cases h : sep = []
    · simp [h]
    · simp only [h, if_false, List.prefix_nil, iff_false]
      omega
  | cons b rest =>
    unfold indexFrom
    by_cases h : sep.isPrefixOf (b :: rest) = true
    · simp only [h, if_true, true_iff]
      exact List.isPrefixOf_iff_prefix.mp h
    · simp only [h, Bool.false_eq_true, if_false]
      have hp : ¬ sep <+: b :: rest := fun hp => h (List.isPrefixOf_iff_prefix.mpr hp)
      simp only [hp, iff_false]
      rcases indexFrom_bound sep rest (i + 1) with h1 | h1
      · omega
      · push_cast at h1; omega

theorem Index_eq_zero_iff (s sep : Bytes) : Index s sep = 0 ↔ sep <+: s := by
  unfold Index
  exact_mod_cast indexFrom_eq_start sep s 0

theorem indexFrom_nonneg_iff (sep : Bytes) (s : Bytes) (i : Nat) :
    0 ≤ indexFrom sep s i ↔ sep <:+: s := by
  induction s generalizing i with
  | nil =>
    unfold indexFrom
    by_cases h : sep = []
    · simp [h]
    · simp [h]
  | cons b rest ih =>
    unfold indexFrom
    by_cases h : sep.isPrefixOf (b :: rest) = true
    · simp only [h, if_true]
      have hp := List.isPrefixOf_iff_prefix.mp h
      constructor
      · intro _; exact hp.isInfix
      · intro _; omega
    · simp only [h, Bool.false_eq_true, if_false]
      have hp : ¬ sep <+: b :: rest := fun hp => h (List.isPrefixOf_iff_prefix.mpr hp)
      rw [ih (i + 1), List.infix_cons_iff]
      simp [hp]

theorem Contains_iff (s sub : Bytes) : Contains s sub = true ↔ sub <:+: s := by
  unfold Contains Index
  rw [decide_eq_true_iff]
  exact indexFrom_nonneg_iff sub s 0

theorem isMessageLineEOF_iff (line : Bytes) :
    isMessageLineEOF line = true ↔ ∃ p ∈ terminatorPrefixes, p <+: line := by
  unfold isMessageLineEOF terminatorPrefixes
  simp only [Bool.or_eq_true, decide_eq_true_iff, HasPrefix_iff, Index_eq_zero_iff,
    List.mem_cons, List.mem_singleton, exists_eq_or_imp, exists_eq_left, List.not_mem_nil,
    false_and, exists_false, or_false, List.mem_nil_iff]
  tauto

theorem joinLines_cons (l : Bytes) (ls : List Bytes) :
    joinLines (l :: ls) = l ++ [NL] ++ joinLines ls := by
  simp [joinLines]

theorem readMessageLoop_terminator (pre post : List Bytes) (t : Bytes) (err : Option GoError)
    (buf : Bytes) (hpre : ∀ l ∈ pre, isMessageLineEOF l = false)
    (ht : isMessageLineEOF t = true) :
    readMessageLoop (pre ++ t :: post) err buf
      = ((buf ++ joinLines (pre ++ [t]), none), ⟨post, err⟩) := by
  induction pre generalizing buf with
  | nil =>
    simp [readMessageLoop, ht, joinLines]
  | cons l ls ih =>
    have hl : isMessageLineEOF l = false := hpre l (List.mem_cons_self _ _)
    have hls : ∀ x ∈ ls, isMessageLineEOF x = false :=
      fun x hx => hpre x (List.mem_cons_of_mem _ hx)
    have hstep : readMessageLoop ((l :: ls) ++ t :: post) err buf
        = readMessageLoop (ls ++ t :: post) err (buf ++ l ++ [NL]) := by
      simp only [List.cons_append, readMessageLoop, hl, Bool.false_eq_true, if_false]
      rfl
    rw [hstep, ih _ hls, List.cons_append, joinLines_cons]
    simp [List.append_assoc]

theorem readMessageLoop_no_terminator (lines : List Bytes) (buf : Bytes)
    (h : ∀ l ∈ lines, isMessageLineEOF l = false) :
    readMessageLoop lines none buf = (([], none), ⟨[], none⟩) := by
  induction lines generalizing buf with
  | nil => simp [readMessageLoop]
  | cons l ls ih =>
    have hl : isMessageLineEOF l = false := h l (List.mem_cons_self _ _)
    simp only [readMessageLoop, hl, Bool.false_eq_true, if_false]
    exact ih _ (fun x hx => h x (List.mem_cons_of_mem _ hx))

/-! ## The line reader -/

/-- C1: on a scanner that delivers its lines without a read error, `readMessage` returns the
lines up to and including the first terminator line, each followed by a newline, with a nil
error and exactly those lines consumed; without any terminator line it returns the empty
string with a nil error. A terminator line is one that begins with one of the eight
prefixes. -/
theorem readMessage_contract :
    (∀ line : Bytes, isMessageLineEOF line = true ↔ ∃ p ∈ terminatorPrefixes, p <+: line) ∧
    (∀ (pre post : List Bytes) (t : Bytes),
      (∀ l ∈ pre, isMessageLineEOF l = false) → isMessageLineEOF t = true →
      readMessage ⟨pre ++ t :: post, none⟩ = ((joinLines (pre ++ [t]), none), ⟨post, none⟩)) ∧
    (∀ lines : List Bytes, (∀ l ∈ lines, isMessageLineEOF l = false) →
      readMessage ⟨lines, none⟩ = (([], none), ⟨[], none⟩)) ∧
    readMessage ⟨[lit "abc", lit "def", lit "END"], none⟩
      = ((lit "abc\ndef\nEND\n", none), ⟨[], none⟩) ∧
    (∀ (x : Bytes) (rest : List Bytes),
      readMessage ⟨(lit ">INFO:" ++ x) :: rest, none⟩
        = ((lit ">INFO:" ++ x ++ lit "\n", none), ⟨rest, none⟩)) := by
  refine ⟨isMessageLineEOF_iff, ?_, ?_, by decide, ?_⟩
  · intro pre post t hpre ht
    unfold readMessage
    simpa using readMessageLoop_terminator pre post t none [] hpre ht
  · intro lines h
    exact readMessageLoop_no_terminator lines [] h
  · intro x rest
    have ht : isMessageLineEOF (lit ">INFO:" ++ x) = true := by
      rw [isMessageLineEOF_iff]
      exact ⟨lit ">INFO:", by simp [terminatorPrefixes], List.prefix_append _ _⟩
    have h := readMessageLoop_terminator [] rest (lit ">INFO:" ++ x) none [] (by simp) ht
    unfold readMessage
    simpa [joinLines, NL, lit] using h

/-- Witness of C1: the line `abc` followed by the terminator `>HOLD:w` and a further line. -/
theorem readMessage_contract_witness :
    (∀ l ∈ [lit "abc"], isMessageLineEOF l = false) ∧
    isMessageLineEOF (lit ">HOLD:w") = true ∧
    readMessage ⟨[lit "abc"] ++ lit ">HOLD:w" :: [lit "z"], none⟩
      = ((joinLines ([lit "abc"] ++ [lit ">HOLD:w"]), none), ⟨[lit "z"], none⟩) :=
  ⟨by decide, by decide,
    readMessage_contract.2.1 [lit "abc"] [lit "z"] (lit ">HOLD:w") (by decide) (by decide)⟩

/-! ## Client event blocks -/

theorem lit_env_end : lit ">CLIENT:ENV,END" = lit ">CLIENT:ENV," ++ lit "END" := by decide

theorem END_prefix_key (k v : Bytes) (h : lit "END" <+: k ++ lit "=" ++ v) : lit "END" <+: k := by
  have hE : lit "END" = [69, 78, 68] := by decide
  have hq : lit "=" = [61] := by decide
  rw [hE, hq] at h
  rw [hE]
  match k, h with
  | [], h => simp at h
  | [a], h => simp at h
  | [a, b], h => simp at h
  | a :: b :: c :: k', h =>
    simp only [List.cons_append, List.cons_prefix_cons] at h ⊢
    exact ⟨h.1, h.2.1, h.2.2.1, List.nil_prefix⟩

theorem envLine_not_terminator (kv : Bytes × Bytes) (h : ¬ lit "END" <+: kv.1) :
    isMessageLineEOF (envLine kv) = false := by
  rw [Bool.eq_false_iff]
  intro ht
  rw [isMessageLineEOF_iff] at ht
  obtain ⟨p, hp, hpre⟩ := ht
  unfold envLine at hpre
  simp only [terminatorPrefixes, List.mem_cons, List.mem_singleton, List.not_mem_nil,
    or_false] at hp
  rcases hp with rfl | rfl | rfl | rfl | rfl | rfl | rfl | rfl
  · rw [lit_env_end, List.append_assoc, List.append_assoc, List.prefix_append_right_inj] at hpre
    rw [← List.append_assoc] at hpre
    exact h (END_prefix_key _ _ hpre)
  all_goals
    simp [lit] at hpre

theorem header_not_terminator (reauth : Bool) (cid kid : Bytes) :
    isMessageLineEOF ((if reauth then lit ">CLIENT:REAUTH," else lit ">CLIENT:CONNECT,")
      ++ cid ++ lit "," ++ kid) = false := by
  rw [Bool.eq_false_iff]
  intro ht
  rw [isMessageLineEOF_iff] at ht
  obtain ⟨p, hp, hpre⟩ := ht
  simp only [terminatorPrefixes, List.mem_cons, List.mem_singleton, List.not_mem_nil,
    or_false] at hp
  cases reauth <;> rcases hp with rfl | rfl | rfl | rfl | rfl | rfl | rfl | rfl <;>
    simp [lit] at hpre

/-- C9, as the code behaves: a client event block whose attribute keys do not begin with
`END` is returned by `readMessage` as one message that holds every line of the block, each
followed by a newline, ends with the line `>CLIENT:ENV,END`, and leaves the lines after the
block unread. -/
theorem readMessage_clientBlock (reauth : Bool) (cid kid : Bytes) (env : List (Bytes × Bytes))
    (rest : List Bytes) (hkeys : ∀ kv ∈ env, ¬ lit "END" <+: kv.1) :
    readMessage ⟨clientBlock reauth cid kid env ++ rest, none⟩
      = ((joinLines (clientBlock reauth cid kid env), none), ⟨rest, none⟩) ∧
    (clientBlock reauth cid kid env).getLast? = some (lit ">CLIENT:ENV,END") := by
  constructor
  · have ht : isMessageLineEOF (lit ">CLIENT:ENV,END") = true := by decide
    have hpre : ∀ l ∈ ((if reauth then lit ">CLIENT:REAUTH," else lit ">CLIENT:CONNECT,")
        ++ cid ++ lit "," ++ kid) :: env.map envLine, isMessageLineEOF l = false := by
      intro l hl
      rcases List.mem_cons.mp hl with rfl | hl
      · exact header_not_terminator reauth cid kid
      · obtain ⟨kv, hkv, rfl⟩ := List.mem_map.mp hl
        exact envLine_not_terminator kv (hkeys kv hkv)
    have h := readMessageLoop_terminator _ rest (lit ">CLIENT:ENV,END") none [] hpre ht
    unfold readMessage clientBlock
    simpa using h
  · unfold clientBlock
    rw [← List.cons_append, List.getLast?_append]
    rfl

/-- Witness of C9: a `CONNECT` block with the attribute `IV_SSO=webauth`. -/
theorem readMessage_clientBlock_witness :
    readMessage ⟨clientBlock false (lit "0") (lit "1") [(lit "IV_SSO", lit "webauth")]
        ++ [lit ">INFO:x"], none⟩
      = ((joinLines (clientBlock false (lit "0") (lit "1") [(lit "IV_SSO", lit "webauth")]), none),
          ⟨[lit ">INFO:x"], none⟩) ∧
    (clientBlock false (lit "0") (lit "1") [(lit "IV_SSO", lit "webauth")]).getLast?
      = some (lit ">CLIENT:ENV,END") :=
  readMessage_clientBlock false (lit "0") (lit "1") [(lit "IV_SSO", lit "webauth")]
    [lit ">INFO:x"] (by decide)

/-- C9 fails as stated: with the attribute key `ENDPOINT` the message ends at the
attribute line, and the line `>CLIENT:ENV,END` is left unread. -/
theorem readMessage_clientBlock_END_key :
    readMessage ⟨clientBlock false (lit "0") (lit "1") [(lit "ENDPOINT", lit "x")], none⟩
      = ((lit ">CLIENT:CONNECT,0,1\n>CLIENT:ENV,ENDPOINT=x\n", none),
          ⟨[lit ">CLIENT:ENV,END"], none⟩) ∧
    (readMessage ⟨clientBlock false (lit "0") (lit "1") [(lit "ENDPOINT", lit "x")], none⟩).1.1
      ≠ joinLines (clientBlock false (lit "0") (lit "1") [(lit "ENDPOINT", lit "x")]) := by
  decide

/-! ## The command channel -/

theorem splitLoop_one_head (sep : Nat) (s cur : Bytes) :
    ∃ tl, splitLoop sep s (some 1) cur = (cur ++ s.takeWhile (fun b => decide (b ≠ sep))) :: tl := by
  induction s generalizing cur with
  | nil => exact ⟨[], by simp [splitLoop]⟩
  | cons b rest ih =>
    by_cases hb : b = sep
    · exact ⟨splitLoop sep rest (some 0) [], by simp [splitLoop, hb]⟩
    · obtain ⟨tl, htl⟩ := ih (cur ++ [b])
      exact ⟨tl, by simp [splitLoop, hb, htl]⟩

theorem cmdFirstLine_eq (cmd : Bytes) :
    cmdFirstLine cmd = .ret (cmd.takeWhile (fun b => decide (b ≠ NL))) := by
  obtain ⟨tl, htl⟩ := splitLoop_one_head NL cmd []
  have h2 : SplitN cmd NL 2 = splitLoop NL cmd (some 1) [] := by
    simp [SplitN]
  simp [cmdFirstLine, indexAt, h2, htl]

theorem takeWhile_of_HasFirstLine (cmd line : Bytes) (h : HasFirstLine cmd line) :
    cmd.takeWhile (fun b => decide (b ≠ NL)) = line := by
  obtain ⟨hnl, hcmd⟩ := h
  have key : ∀ (l tail : Bytes), NL ∉ l → (tail = [] ∨ ∃ r, tail = NL :: r) →
      (l ++ tail).takeWhile (fun b => decide (b ≠ NL)) = l := by
    intro l tail hl ht
    induction l with
    | nil =>
      rcases ht with rfl | ⟨r, rfl⟩ <;> simp
    | cons a l ih =>
      have ha : a ≠ NL := fun h => hl (by simp [h])
      have hl2 : NL ∉ l := fun h => hl (List.mem_cons_of_mem _ h)
      have h := ih hl2
      simp only [List.cons_append, List.takeWhile_cons, ha, ne_eq, not_false_eq_true, decide_True, if_true]
      rw [h]
  rcases hcmd with rfl | ⟨rest, rfl⟩
  · simpa using key cmd [] hnl (Or.inl rfl)
  · exact key line (NL :: rest) hnl (Or.inr ⟨rest, rfl⟩)

theorem Chan.send_ok {α : Type} (ch : Chan α) (v : α) (hopen : ch.closed = false)
    (hroom : ch.buf.length < ch.cap) :
    ch.send v = .ret { ch with buf := ch.buf ++ [v] } := by
  simp [Chan.send, hopen, hroom]

/-- C2: when the send on the outbound queue goes through (the queue is open and has
room), `SendCommand` appends exactly `cmd` followed by one newline to the queue and decides
its result from the next value of the response channel: the empty string gives the empty
result with an error wrapping `ErrEmptyResponse`; a non-empty string, also one that begins
with `ERROR:`, is returned unchanged with a nil error; no value before the timeout gives the
empty result with an error wrapping `ErrTimeout`. -/
theorem SendCommand_contract (c : Client) (cmd : Bytes) (arrival : Option Bytes)
    (hopen : c.commandsCh.closed = false)
    (hroom : c.commandsCh.buf.length < c.commandsCh.cap) :
    ∃ (c' : Client) (resp : Bytes) (err : Option GoError),
      SendCommand c cmd arrival = .ret (c', resp, err) ∧
      c'.commandsCh.buf = c.commandsCh.buf ++ [cmd ++ lit "\n"] ∧
      ((selectResponse c.commandResponseCh arrival).1 = some [] →
        resp = [] ∧ ∃ e, err = some e ∧ e.Is .ErrEmptyResponse = true) ∧
      (∀ r, (selectResponse c.commandResponseCh arrival).1 = some r → r ≠ [] →
        resp = r ∧ err = none) ∧
      ((selectResponse c.commandResponseCh arrival).1 = none →
        resp = [] ∧ ∃ e, err = some e ∧ e.Is .ErrTimeout = true) := by
  unfold SendCommand
  rw [Chan.send_ok _ _ hopen hroom]
  simp only [Exec.bind, sendCommandSelect, cmdFirstLine_eq]
  rcases hsel : selectResponse c.commandResponseCh arrival with ⟨next, ch⟩
  rcases next with _ | r
  · refine ⟨_, _, _, rfl, rfl, ?_, ?_, ?_⟩
    · intro h; simp at h
    · intro r h; simp at h
    · intro _; exact ⟨rfl, _, rfl, rfl⟩
  · by_cases hr : r = []
    · subst hr
      simp only [if_true]
      refine ⟨_, _, _, rfl, rfl, ?_, ?_, ?_⟩
      · intro _; exact ⟨rfl, _, rfl, rfl⟩
      · intro r h hne; simp at h; exact absurd h.symm (by simpa using hne)
      · intro h; simp at h
    · by_cases hp : HasPrefix r (lit "ERROR:") = true
      · simp only [hr, hp, if_true, if_false]
        refine ⟨_, _, _, rfl, rfl, ?_, ?_, ?_⟩
        · intro h; simp at h; exact absurd h hr
        · intro r2 h _; simp at h; exact ⟨h, rfl⟩
        · intro h; simp at h
      · simp only [hr, hp, if_false]
        refine ⟨_, _, _, rfl, rfl, ?_, ?_, ?_⟩
        · intro h; simp at h; exact absurd h hr
        · intro r2 h _; simp at h; exact ⟨h, rfl⟩
        · intro h; simp at h

/-- Witness of C2: `hold release` sent on a fresh client, answered with a `SUCCESS:` line. -/
theorem SendCommand_contract_witness :
    NewClient.commandsCh.closed = false ∧
    NewClient.commandsCh.buf.length < NewClient.commandsCh.cap ∧
    ∃ (c' : Client) (resp : Bytes) (err : Option GoError),
      SendCommand NewClient (lit "hold release") (some (lit "SUCCESS: hold released"))
        = .ret (c', resp, err) ∧
      c'.commandsCh.buf = NewClient.commandsCh.buf ++ [lit "hold release" ++ lit "\n"] ∧
      ((selectResponse NewClient.commandResponseCh (some (lit "SUCCESS: hold released"))).1
          = some [] →
        resp = [] ∧ ∃ e, err = some e ∧ e.Is .ErrEmptyResponse = true) ∧
      (∀ r, (selectResponse NewClient.commandResponseCh (some (lit "SUCCESS: hold released"))).1
          = some r → r ≠ [] → resp = r ∧ err = none) ∧
      ((selectResponse NewClient.commandResponseCh (some (lit "SUCCESS: hold released"))).1
          = none →
        resp = [] ∧ ∃ e, err = some e ∧ e.Is .ErrTimeout = true) :=
  ⟨by decide, by decide,
    SendCommand_contract NewClient (lit "hold release") (some (lit "SUCCESS: hold released"))
      (by decide) (by decide)⟩

theorem SendCommand_error_of (c : Client) (cmd line : Bytes) (arrival : Option Bytes)
    (s : Sentinel) (hline : HasFirstLine cmd line)
    (hopen : c.commandsCh.closed = false)
    (hroom : c.commandsCh.buf.length < c.commandsCh.cap)
    (hsel : ((selectResponse c.commandResponseCh arrival).1 = none ∧ s = .ErrTimeout) ∨
      ((selectResponse c.commandResponseCh arrival).1 = some [] ∧ s = .ErrEmptyResponse)) :
    ∃ c', SendCommand c cmd arrival
      = .ret (c', [], some (.wrap (lit "command error \x27" ++ line ++ lit "\x27: ")
          (.sentinel s) [])) := by
  unfold SendCommand
  rw [Chan.send_ok _ _ hopen hroom]
  simp only [Exec.bind, sendCommandSelect, cmdFirstLine_eq,
    takeWhile_of_HasFirstLine cmd line hline]
  rcases hres : selectResponse c.commandResponseCh arrival with ⟨next, ch⟩
  rw [hres] at hsel
  rcases hsel with ⟨h, rfl⟩ | ⟨h, rfl⟩
  · simp only at h
    subst h
    exact ⟨_, rfl⟩
  · simp only at h
    subst h
    simp only [if_true]
    exact ⟨_, rfl⟩

/-- C7: the error `SendCommand` returns mentions the command only through its first line.
Two commands with the same first line `line`, sent in the same state, get the same error on
timeout and the same error on an empty response, and its text is
`command error '<line>': ` followed by the text of `ErrTimeout`, respectively
`ErrEmptyResponse`. -/
theorem SendCommand_error_first_line_only (t : ErrorText) (c : Client)
    (cmd1 cmd2 line : Bytes) (arrival : Option Bytes)
    (h1 : HasFirstLine cmd1 line) (h2 : HasFirstLine cmd2 line)
    (hopen : c.commandsCh.closed = false)
    (hroom : c.commandsCh.buf.length < c.commandsCh.cap) :
    ((selectResponse c.commandResponseCh arrival).1 = none →
      ∃ c1 c2 e, SendCommand c cmd1 arrival = .ret (c1, [], some e) ∧
        SendCommand c cmd2 arrival = .ret (c2, [], some e) ∧
        e.Error t = lit "command error \x27" ++ line ++ lit "\x27: "
          ++ t.sentinel .ErrTimeout) ∧
    ((selectResponse c.commandResponseCh arrival).1 = some [] →
      ∃ c1 c2 e, SendCommand c cmd1 arrival = .ret (c1, [], some e) ∧
        SendCommand c cmd2 arrival = .ret (c2, [], some e) ∧
        e.Error t = lit "command error \x27" ++ line ++ lit "\x27: "
          ++ t.sentinel .ErrEmptyResponse) := by
  constructor
  · intro hsel
    obtain ⟨c1, hc1⟩ := SendCommand_error_of c cmd1 line arrival .ErrTimeout h1 hopen hroom
      (Or.inl ⟨hsel, rfl⟩)
    obtain ⟨c2, hc2⟩ := SendCommand_error_of c cmd2 line arrival .ErrTimeout h2 hopen hroom
      (Or.inl ⟨hsel, rfl⟩)
    exact ⟨c1, c2, _, hc1, hc2, by simp [GoError.Error]⟩
  · intro hsel
    obtain ⟨c1, hc1⟩ := SendCommand_error_of c cmd1 line arrival .ErrEmptyResponse h1 hopen hroom
      (Or.inr ⟨hsel, rfl⟩)
    obtain ⟨c2, hc2⟩ := SendCommand_error_of c cmd2 line arrival .ErrEmptyResponse h2 hopen hroom
      (Or.inr ⟨hsel, rfl⟩)
    exact ⟨c1, c2, _, hc1, hc2, by simp [GoError.Error]⟩

/-- Witness of C7: two `client-auth` commands that differ after their first line, timing
out on a fresh client. -/
theorem SendCommand_error_first_line_only_witness :
    HasFirstLine (lit "client-auth 1 2\npassword-a\nEND") (lit "client-auth 1 2") ∧
    HasFirstLine (lit "client-auth 1 2\nhunter2") (lit "client-auth 1 2") ∧
    (selectResponse NewClient.commandResponseCh none).1 = none ∧
    ∃ c1 c2 e,
      SendCommand NewClient (lit "client-auth 1 2\npassword-a\nEND") none
        = .ret (c1, [], some e) ∧
      SendCommand NewClient (lit "client-auth 1 2\nhunter2") none = .ret (c2, [], some e) ∧
      e.Error ⟨fun _ => lit "timeout", id⟩
        = lit "command error \x27" ++ lit "client-auth 1 2" ++ lit "\x27: " ++ lit "timeout" :=
  have h1 : HasFirstLine (lit "client-auth 1 2\npassword-a\nEND") (lit "client-auth 1 2") :=
    ⟨by decide, Or.inr ⟨lit "password-a\nEND", by decide⟩⟩
  have h2 : HasFirstLine (lit "client-auth 1 2\nhunter2") (lit "client-auth 1 2") :=
    ⟨by decide, Or.inr ⟨lit "hunter2", by decide⟩⟩
  ⟨h1, h2, by decide,
    (SendCommand_error_first_line_only ⟨fun _ => lit "timeout", id⟩ NewClient _ _ _ none h1 h2
      (by decide) (by decide)).1 (by decide)⟩

/-! ## SSO capability check -/

theorem denyCalls_append (xs ys : List Effect) :
    denyCalls (xs ++ ys) = denyCalls xs ++ denyCalls ys := by
  induction xs with
  | nil => rfl
  | cons e rest ih =>
    cases e with
    | log level msg => simpa [denyCalls] using ih
    | denyClient id reason => simpa [denyCalls] using ih

/-- C4: `checkClientSsoCapabilities` returns true and leaves the client as it is (no deny)
when the record's `IvSSO` contains `webauth`; otherwise it returns false and adds exactly one
`DenyClient` call, addressed to the record's `(Cid, Kid)`, with the fixed reason. -/
theorem checkClientSsoCapabilities_contract (c : Client) (client : ConnectionClient) :
    (lit "webauth" <:+: client.IvSSO → checkClientSsoCapabilities c client = (true, c)) ∧
    (¬ lit "webauth" <:+: client.IvSSO →
      (checkClientSsoCapabilities c client).1 = false ∧
      denyCalls (checkClientSsoCapabilities c client).2.effects
        = denyCalls c.effects ++
          [({ Cid := client.Cid, Kid := client.Kid },
            lit "OpenVPN Client does not support SSO authentication via webauth")]) := by
  constructor
  · intro h
    have hc : Contains client.IvSSO (lit "webauth") = true := (Contains_iff _ _).mpr h
    simp [checkClientSsoCapabilities, hc]
  · intro h
    have hc : Contains client.IvSSO (lit "webauth") = false := by
      rw [Bool.eq_false_iff]
      exact fun hc => h ((Contains_iff _ _).mp hc)
    simp [checkClientSsoCapabilities, hc, denyCalls_append, denyCalls, errorSsoNotSupported]

/-- Witness of C4: a record that advertises only `openurl` is denied once, under its own
identifier. -/
theorem checkClientSsoCapabilities_contract_witness :
    ¬ lit "webauth" <:+: (lit "openurl") ∧
    (checkClientSsoCapabilities NewClient { Cid := 7, Kid := 3, IvSSO := lit "openurl" }).1 = false ∧
    denyCalls (checkClientSsoCapabilities NewClient
        { Cid := 7, Kid := 3, IvSSO := lit "openurl" }).2.effects
      = denyCalls NewClient.effects ++
        [({ Cid := 7, Kid := 3 },
          lit "OpenVPN Client does not support SSO authentication via webauth")] :=
  have h : ¬ lit "webauth" <:+: (lit "openurl") := fun h =>
    absurd ((Contains_iff _ _).mpr h) (by decide)
  ⟨h, (checkClientSsoCapabilities_contract NewClient
    { Cid := 7, Kid := 3, IvSSO := lit "openurl" }).2 h⟩

/-! ## The version check -/

theorem Atoi_digit (d : Nat) (h : isDigit d = true) : Atoi [d] = .ok ((d - 48 : Nat) : Int) := by
  simp only [isDigit, Bool.and_eq_true, decide_eq_true_iff] at h
  obtain ⟨h1, h2⟩ := h
  interval_cases d <;> rfl

theorem Atoi_not_digit (d : Nat) (h : isDigit d = false) :
    Atoi [d] = .error (.numError (lit "Atoi") [d] (.sentinel .ErrSyntax)) := by
  by_cases h43 : d = 43
  · subst h43; rfl
  by_cases h45 : d = 45
  · subst h45; rfl
  unfold Atoi
  split
  · rename_i r heq; simp at heq; exact absurd heq.1 h43
  · rename_i r heq; simp at heq; exact absurd heq.1 h45
  · simp [parseUintLoop, h]

theorem sliceFrom_last (init : Bytes) (d : Nat) :
    sliceFrom (init ++ [d]) (((init ++ [d]).length : Int) - 1) = .ret [d] := by
  have hlen : (((init ++ [d]).length : Int) - 1) = (init.length : Int) := by
    simp
  rw [hlen]
  unfold sliceFrom
  have h1 : ¬ ((init.length : Int) < 0 ∨ ((init ++ [d]).length : Int) < (init.length : Int)) := by
    simp only [List.length_append, List.length_singleton]
    push_cast
    omega
  simp [h1]

theorem versionCheck_eq (c c1 : Client) (arrival : Option Bytes) (resp : Bytes)
    (hsend : SendCommand c (lit "version") arrival = .ret (c1, resp, none)) :
    (checkManagementInterfaceVersion c arrival).map Prod.snd =
      if HasPrefix resp (lit "OpenVPN Version: ") = false then
        .ret (some (.wrap (lit "error from version command: ")
          (.sentinel .ErrErrorResponse) (lit ": " ++ resp)))
      else if (Split resp NL).length ≠ 4 then
        .ret (some (.new (lit "unexpected response from version command: " ++ resp)))
      else
        match ((Split resp NL).getD 1 []).getLast? with
        | none => .panics
        | some d =>
          if isDigit d = false then
            .ret (some (.wrap (lit "unable to parse openvpn management interface version: ")
              (.numError (lit "Atoi") [d] (.sentinel .ErrSyntax)) []))
          else if d - 48 < 5 then
            .ret (some (.new (lit
              "openvpn-auth-oauth2 requires OpenVPN management interface version 5 or higher")))
          else .ret none := by
  unfold checkManagementInterfaceVersion
  rw [hsend]
  simp only [Exec.bind, Exec.map]
  by_cases hp : HasPrefix resp (lit "OpenVPN Version: ") = true
  · by_cases hlen : (Split resp NL).length = 4
    · simp only [hp, hlen, Bool.not_true, Bool.false_eq_true, if_false, ne_eq, not_true_eq_false,
        Bool.true_eq_false]
      match hparts : Split resp NL, hlen with
      | [p0, p1, p2, p3], _ =>
        simp only [indexAt, List.get?, List.getD_cons_succ, List.getD_cons_zero, Exec.bind]
        rcases List.eq_nil_or_concat p1 with h | ⟨init, d, h⟩
        · subst h
          simp [sliceFrom, Exec.bind]
        · subst h
          rw [List.concat_eq_append, sliceFrom_last]
          simp only [Exec.bind, List.getLast?_append, List.getLast?_singleton, Option.or_some]
          by_cases hd : isDigit d = true
          · rw [Atoi_digit d hd]
            by_cases h5 : d - 48 < 5
            · have : ((d - 48 : Nat) : Int) < 5 := by exact_mod_cast h5
              simp [h5, this, hd, Exec.bind]
            · have : ¬ ((d - 48 : Nat) : Int) < 5 := by exact_mod_cast h5
              simp [h5, this, hd, Exec.bind]
          · have hd2 : isDigit d = false := by simpa using hd
            rw [Atoi_not_digit d hd2]
            simp [hd2, Exec.bind]
    · simp [hp, hlen, Exec.bind]
  · have hp2 : HasPrefix resp (lit "OpenVPN Version: ") = false := by simpa using hp
    simp [hp2, Exec.bind]

/-- C3: let `resp` be the response `SendCommand("version")` returned with a nil error, and
suppose that its second piece is non-empty whenever it splits on newlines into exactly 4
pieces. Then `checkManagementInterfaceVersion` returns nil exactly when `resp` begins with
`OpenVPN Version: `, splits into exactly 4 pieces, and the last byte of the second piece is
a decimal digit `d` with `d ≥ 5`. Otherwise it returns an error: one wrapping
`ErrErrorResponse` when the prefix is missing; with the prefix present, the
`unexpected response` error when the piece count is not 4, the `unable to parse` error when
the last byte is no digit, and the minimum-version error when the digit is below 5. -/
theorem checkManagementInterfaceVersion_contract (c c1 : Client) (arrival : Option Bytes)
    (resp : Bytes)
    (hsend : SendCommand c (lit "version") arrival = .ret (c1, resp, none))
    (hsecond : (Split resp NL).length = 4 → (Split resp NL).getD 1 [] ≠ []) :
    ((checkManagementInterfaceVersion c arrival).map Prod.snd = .ret none ↔
      (lit "OpenVPN Version: " <+: resp ∧ (Split resp NL).length = 4 ∧
        ∃ d, ((Split resp NL).getD 1 []).getLast? = some d ∧ 48 ≤ d ∧ d ≤ 57 ∧ 5 ≤ d - 48)) ∧
    (¬ lit "OpenVPN Version: " <+: resp →
      ∃ e, (checkManagementInterfaceVersion c arrival).map Prod.snd = .ret (some e) ∧
        e = .wrap (lit "error from version command: ") (.sentinel .ErrErrorResponse)
          (lit ": " ++ resp) ∧
        e.Is .ErrErrorResponse = true) ∧
    (lit "OpenVPN Version: " <+: resp → (Split resp NL).length ≠ 4 →
      (checkManagementInterfaceVersion c arrival).map Prod.snd
        = .ret (some (.new (lit "unexpected response from version command: " ++ resp)))) ∧
    (lit "OpenVPN Version: " <+: resp → (Split resp NL).length = 4 →
      (∀ d, ((Split resp NL).getD 1 []).getLast? = some d → ¬ (48 ≤ d ∧ d ≤ 57)) →
      ∃ e, (checkManagementInterfaceVersion c arrival).map Prod.snd
        = .ret (some (.wrap (lit "unable to parse openvpn management interface version: ")
            e []))) ∧
    (lit "OpenVPN Version: " <+: resp → (Split resp NL).length = 4 →
      ∀ d, ((Split resp NL).getD 1 []).getLast? = some d → 48 ≤ d → d ≤ 57 → d - 48 < 5 →
      (checkManagementInterfaceVersion c arrival).map Prod.snd
        = .ret (some (.new (lit
            "openvpn-auth-oauth2 requires OpenVPN management interface version 5 or higher")))) := by
  have hR := versionCheck_eq c c1 arrival resp hsend
  generalize (checkManagementInterfaceVersion c arrival).map Prod.snd = R at hR ⊢
  have hdig : ∀ d, isDigit d = true ↔ (48 ≤ d ∧ d ≤ 57) := by
    intro d; simp [isDigit]
  by_cases hp : HasPrefix resp (lit "OpenVPN Version: ") = true
  · have hpre : lit "OpenVPN Version: " <+: resp := (HasPrefix_iff _ _).mp hp
    by_cases hlen : (Split resp NL).length = 4
    · obtain ⟨d, hd⟩ : ∃ d, ((Split resp NL).getD 1 []).getLast? = some d :=
        ⟨_, List.getLast?_eq_getLast _ (hsecond hlen)⟩
      simp only [hp, hlen, hd, Bool.true_eq_false, if_false, ne_eq, not_true_eq_false] at hR
      have huniq : ∀ d2, ((Split resp NL).getD 1 []).getLast? = some d2 → d2 = d := by
        intro d2 h2; rw [hd] at h2; exact (Option.some.inj h2).symm
      by_cases hdg : isDigit d = true
      · have hr := (hdig d).mp hdg
        by_cases h5 : d - 48 < 5
        · simp only [hdg, h5, Bool.true_eq_false, if_false, if_true] at hR
          subst hR
          refine ⟨?_, ?_, ?_, ?_, ?_⟩
          · constructor
            · intro h; simp at h
            · rintro ⟨_, _, d2, hd2, _, _, h⟩
              have := huniq d2 hd2; omega
          · intro h; exact absurd hpre h
          · intro _ h; exact absurd hlen h
          · intro _ _ h; exact absurd hr (h d hd)
          · intro _ _ _ _ _ _ _; rfl
        · simp only [hdg, h5, Bool.true_eq_false, if_false] at hR
          subst hR
          refine ⟨?_, ?_, ?_, ?_, ?_⟩
          · constructor
            · intro _; exact ⟨hpre, hlen, d, hd, hr.1, hr.2, by omega⟩
            · intro _; rfl
          · intro h; exact absurd hpre h
          · intro _ h; exact absurd hlen h
          · intro _ _ h; exact absurd hr (h d hd)
          · intro _ _ d2 hd2 _ _ h; have := huniq d2 hd2; omega
      · have hdg2 : isDigit d = false := by simpa using hdg
        have hr : ¬ (48 ≤ d ∧ d ≤ 57) := fun h => hdg ((hdig d).mpr h)
        simp only [hdg2, if_true] at hR
        subst hR
        refine ⟨?_, ?_, ?_, ?_, ?_⟩
        · constructor
          · intro h; simp at h
          · rintro ⟨_, _, d2, hd2, h1, h2, _⟩
            have := huniq d2 hd2; subst this; exact absurd ⟨h1, h2⟩ hr
        · intro h; exact absurd hpre h
        · intro _ h; exact absurd hlen h
        · intro _ _ _; exact ⟨_, rfl⟩
        · intro _ _ d2 hd2 h1 h2 _
          have := huniq d2 hd2; subst this; exact absurd ⟨h1, h2⟩ hr
    · simp only [hp, hlen, Bool.true_eq_false, if_false, ne_eq, not_false_eq_true, if_true] at hR
      subst hR
      refine ⟨?_, ?_, ?_, ?_, ?_⟩
      · constructor
        · intro h; simp at h
        · rintro ⟨_, h, _⟩; exact absurd h hlen
      · intro h; exact absurd hpre h
      · intro _ _; rfl
      · intro _ h; exact absurd h hlen
      · intro _ h; exact absurd h hlen
  · have hp2 : HasPrefix resp (lit "OpenVPN Version: ") = false := by simpa using hp
    have hpre : ¬ lit "OpenVPN Version: " <+: resp := fun h => hp ((HasPrefix_iff _ _).mpr h)
    simp only [hp2, if_true] at hR
    subst hR
    refine ⟨?_, ?_, ?_, ?_, ?_⟩
    · constructor
      · intro h; simp at h
      · rintro ⟨h, _⟩; exact absurd h hpre
    · intro _; exact ⟨_, rfl, rfl, rfl⟩
    · intro h; exact absurd h hpre
    · intro h; exact absurd h hpre
    · intro h; exact absurd h hpre

/-- Witness of C3: a fresh client that receives a well-formed answer with management
version 5. -/
theorem checkManagementInterfaceVersion_contract_witness :
    SendCommand NewClient (lit "version")
        (some (lit "OpenVPN Version: OpenVPN 2.6.8\nManagement Version: 5\nEND\n"))
      = .ret ({ NewClient with commandsCh := { NewClient.commandsCh with buf := [lit "version\n"] } },
          lit "OpenVPN Version: OpenVPN 2.6.8\nManagement Version: 5\nEND\n", none) ∧
    ((Split (lit "OpenVPN Version: OpenVPN 2.6.8\nManagement Version: 5\nEND\n") NL).length = 4 →
      (Split (lit "OpenVPN Version: OpenVPN 2.6.8\nManagement Version: 5\nEND\n") NL).getD 1 []
        ≠ []) ∧
    (checkManagementInterfaceVersion NewClient
        (some (lit "OpenVPN Version: OpenVPN 2.6.8\nManagement Version: 5\nEND\n"))).map Prod.snd
      = .ret none :=
  ⟨by decide, by decide,
    (checkManagementInterfaceVersion_contract NewClient
      { NewClient with commandsCh := { NewClient.commandsCh with buf := [lit "version\n"] } }
      (some (lit "OpenVPN Version: OpenVPN 2.6.8\nManagement Version: 5\nEND\n"))
      (lit "OpenVPN Version: OpenVPN 2.6.8\nManagement Version: 5\nEND\n")
      (by decide) (by decide)).1.mpr
      ⟨(HasPrefix_iff _ _).mp (by decide), by decide, 53, by decide, by decide, by decide,
        by decide⟩⟩

/-- C10 fails on the code: a `version` response with the prefix and exactly 4 pieces whose
second piece is empty makes the slice `versionParts[1][len(versionParts[1])-1:]` start
at -1, and the method panics instead of returning nil or an error. -/
theorem checkManagementInterfaceVersion_panics_on_empty_second_line :
    HasPrefix (lit "OpenVPN Version: 2.6\n\nEND\n") (lit "OpenVPN Version: ") = true ∧
    (Split (lit "OpenVPN Version: 2.6\n\nEND\n") NL).length = 4 ∧
    sliceFrom ((Split (lit "OpenVPN Version: 2.6\n\nEND\n") NL).getD 1 [])
      ((((Split (lit "OpenVPN Version: 2.6\n\nEND\n") NL).getD 1 []).length : Int) - 1) = .panics ∧
    checkManagementInterfaceVersion NewClient (some (lit "OpenVPN Version: 2.6\n\nEND\n"))
      = .panics := by
  decide

/-! ## Shutdown and close -/

theorem Shutdown_open_room (c : Client) (hc : c.closed = false)
    (hopen : c.shutdownCh.closed = false) (hroom : c.shutdownCh.buf.length < c.shutdownCh.cap) :
    Shutdown c = .ret { c with
      effects := c.effects ++ [.log .info (lit "shutdown OpenVPN management connection")]
      shutdownCh := { c.shutdownCh with buf := c.shutdownCh.buf ++ [()] } } := by
  simp only [Shutdown, hc, Bool.not_false, if_true]
  rw [Chan.send_ok _ _ hopen hroom]
  rfl

theorem Shutdown_open_full (c : Client) (hc : c.closed = false)
    (hopen : c.shutdownCh.closed = false) (hfull : ¬ c.shutdownCh.buf.length < c.shutdownCh.cap) :
    Shutdown c = .blocks := by
  simp [Shutdown, hc, Chan.send, hopen, hfull, Exec.bind]

theorem Shutdown_closed (c : Client) (hc : c.closed = true) : Shutdown c = .ret c := by
  simp [Shutdown, hc]

/-- C5, as the code behaves: on a client that is not closed and has no signal buffered in
the capacity-1 shutdown channel, `Shutdown()` completes and leaves exactly one signal
buffered; on a client that is not closed and has one signal buffered already, the send
blocks and the call does not complete; on a closed client `Shutdown()` leaves the state
unchanged. -/
theorem Shutdown_contract (c : Client) (hcap : c.shutdownCh.cap = 1)
    (hopen : c.shutdownCh.closed = false) :
    (c.closed = false → c.shutdownCh.buf.length = 0 →
      ∃ c', Shutdown c = .ret c' ∧ c'.closed = false ∧ c'.shutdownCh.buf.length = 1) ∧
    (c.closed = false → c.shutdownCh.buf.length = 1 → Shutdown c = .blocks) ∧
    (c.closed = true → Shutdown c = .ret c) := by
  refine ⟨?_, ?_, ?_⟩
  · intro hc hbuf
    refine ⟨_, Shutdown_open_room c hc hopen (by omega), hc, ?_⟩
    simp [hbuf]
  · intro hc hbuf
    exact Shutdown_open_full c hc hopen (by omega)
  · exact Shutdown_closed c

/-- Witness of C5: the first `Shutdown()` on a fresh client. -/
theorem Shutdown_contract_witness :
    NewClient.shutdownCh.cap = 1 ∧ NewClient.shutdownCh.closed = false ∧
    NewClient.closed = false ∧ NewClient.shutdownCh.buf.length = 0 ∧
    ∃ c', Shutdown NewClient = .ret c' ∧ c'.closed = false ∧ c'.shutdownCh.buf.length = 1 :=
  ⟨rfl, rfl, rfl, rfl, (Shutdown_contract NewClient rfl rfl).1 rfl rfl⟩

/-- C5 fails as stated: after one `Shutdown()` on a fresh client the client is still open
with one signal buffered, and a second `Shutdown()` blocks. -/
theorem Shutdown_second_call_blocks :
    (Shutdown NewClient).map (fun c => (c.closed, c.shutdownCh.buf.length)) = .ret (false, 1) ∧
    (Shutdown NewClient).bind Shutdown = .blocks := by
  decide


theorem close_open (c : Client) (hc : c.closed = false) (hq : c.commandsCh.closed = false) :
    close c = .ret { c with
      closed := true
      connCloses := c.connCloses + 1
      commandsCh := { c.commandsCh with closed := true }
      commandsChCloses := c.commandsChCloses + 1 } := by
  simp [close, hc, Chan.close, hq, Exec.bind]

theorem close_closed (c : Client) (hc : c.closed = true) : close c = .ret c := by
  simp [close, hc]

theorem LifecycleInv_NewClient : LifecycleInv NewClient := by
  simp [LifecycleInv, NewClient, Chan.make]

theorem runCalls_closed (calls : List Call) (c : Client) (hc : c.closed = true) :
    runCalls calls c = .ret c := by
  induction calls with
  | nil => rfl
  | cons call rest ih =>
    cases call with
    | callClose => simp [runCalls, close_closed c hc, Exec.bind, ih]
    | callShutdown => simp [runCalls, Shutdown_closed c hc, Exec.bind, ih]

theorem runCalls_invariant (calls : List Call) (c : Client) (hinv : LifecycleInv c) :
    runCalls calls c = .blocks ∨ ∃ c', runCalls calls c = .ret c' ∧ LifecycleInv c' := by
  induction calls generalizing c with
  | nil => exact Or.inr ⟨c, rfl, hinv⟩
  | cons call rest ih =>
    obtain ⟨hq, hcap, hsh, hconn, hqc⟩ := hinv
    by_cases hc : c.closed = true
    · right
      rw [runCalls_closed _ c hc]
      exact ⟨c, rfl, hq, hcap, hsh, hconn, hqc⟩
    · have hc2 : c.closed = false := by simpa using hc
      cases call with
      | callClose =>
        simp only [runCalls, close_open c hc2 (by rw [hq, hc2]), Exec.bind]
        apply ih
        simp [LifecycleInv, hcap, hsh, hconn, hqc, hc2]
      | callShutdown =>
        by_cases hroom : c.shutdownCh.buf.length < c.shutdownCh.cap
        · simp only [runCalls, Shutdown_open_room c hc2 hsh hroom, Exec.bind]
          apply ih
          simp [LifecycleInv, hq, hcap, hsh, hconn, hqc, hc2]
        · left
          simp [runCalls, Shutdown_open_full c hc2 hsh hroom, Exec.bind]

theorem runCalls_reaches_close (calls : List Call) (c : Client) (hinv : LifecycleInv c)
    (hc : c.closed = false) (hmem : Call.callClose ∈ calls)
    (hsig : (beforeFirstClose calls).count .callShutdown + c.shutdownCh.buf.length ≤ 1) :
    ∃ c', runCalls calls c = .ret c' ∧ c'.closed = true ∧ c'.connCloses = 1 ∧
      c'.commandsChCloses = 1 ∧ c'.commandsCh.closed = true := by
  induction calls generalizing c with
  | nil => simp at hmem
  | cons call rest ih =>
    obtain ⟨hq, hcap, hsh, hconn, hqc⟩ := hinv
    cases call with
    | callClose =>
      simp only [runCalls, close_open c hc (by rw [hq, hc]), Exec.bind]
      rw [runCalls_closed _ _ rfl]
      exact ⟨_, rfl, rfl, by simp [hconn, hc], by simp [hqc, hc], rfl⟩
    | callShutdown =>
      have hcount : (beforeFirstClose (Call.callShutdown :: rest)).count .callShutdown
          = (beforeFirstClose rest).count .callShutdown + 1 := by
        simp [beforeFirstClose, List.takeWhile_cons]
      rw [hcount] at hsig
      have hroom : c.shutdownCh.buf.length < c.shutdownCh.cap := by omega
      have hmem2 : Call.callClose ∈ rest := by
        rcases List.mem_cons.mp hmem with h | h
        · cases h
        · exact h
      simp only [runCalls, Shutdown_open_room c hc hsh hroom, Exec.bind]
      apply ih
      · simp [LifecycleInv, hq, hcap, hsh, hconn, hqc, hc]
      · exact hc
      · exact hmem2
      · simp only [List.length_append, List.length_singleton]
        omega

/-- C6, as the code behaves: `close()` on a client that is not closed sets the closed flag,
closes the transport once and closes the outbound command queue once; on a closed client it
changes nothing. For every sequence of `close()` and `Shutdown()` calls on a fresh client
that holds a `close()` and has at most one `Shutdown()` before its first `close()`, all
calls return and afterwards the closed flag is set, the transport has been closed exactly
once and the queue exactly once. In no sequence at all is the queue closed a second time:
a run never panics, and a run that returns has closed transport and queue at most once. -/
theorem close_contract :
    (∀ c : Client, c.closed = false → c.commandsCh.closed = false →
      ∃ c', close c = .ret c' ∧ c'.closed = true ∧ c'.connCloses = c.connCloses + 1 ∧
        c'.commandsChCloses = c.commandsChCloses + 1 ∧ c'.commandsCh.closed = true) ∧
    (∀ c : Client, c.closed = true → close c = .ret c) ∧
    (∀ calls : List Call, Call.callClose ∈ calls →
      (beforeFirstClose calls).count .callShutdown ≤ 1 →
      ∃ c', runCalls calls NewClient = .ret c' ∧ c'.closed = true ∧ c'.connCloses = 1 ∧
        c'.commandsChCloses = 1 ∧ c'.commandsCh.closed = true) ∧
    (∀ calls : List Call, runCalls calls NewClient ≠ .panics ∧
      ∀ c', runCalls calls NewClient = .ret c' → c'.connCloses ≤ 1 ∧ c'.commandsChCloses ≤ 1) := by
  refine ⟨?_, close_closed, ?_, ?_⟩
  · intro c hc hq
    exact ⟨_, close_open c hc hq, rfl, rfl, rfl, rfl⟩
  · intro calls hmem hcount
    exact runCalls_reaches_close calls NewClient LifecycleInv_NewClient rfl hmem
      (by simpa [NewClient, Chan.make] using hcount)
  · intro calls
    rcases runCalls_invariant calls NewClient LifecycleInv_NewClient with h | ⟨c1, h, hinv⟩
    · rw [h]
      exact ⟨by simp, by simp⟩
    · rw [h]
      refine ⟨by simp, ?_⟩
      intro c' hc'
      have : c1 = c' := by simpa using hc'
      subst this
      obtain ⟨_, _, _, hconn, hqc⟩ := hinv
      rw [hconn, hqc]
      constructor <;> split <;> omega

/-- Witness of C6: `Shutdown`, `close`, `Shutdown`, `close` on a fresh client. -/
theorem close_contract_witness :
    Call.callClose ∈ [Call.callShutdown, .callClose, .callShutdown, .callClose] ∧
    (beforeFirstClose [Call.callShutdown, .callClose, .callShutdown, .callClose]).count
      .callShutdown ≤ 1 ∧
    ∃ c', runCalls [Call.callShutdown, .callClose, .callShutdown, .callClose] NewClient = .ret c' ∧
      c'.closed = true ∧ c'.connCloses = 1 ∧ c'.commandsChCloses = 1 ∧
      c'.commandsCh.closed = true :=
  ⟨by decide, by decide,
    close_contract.2.2.1 [Call.callShutdown, .callClose, .callShutdown, .callClose]
      (by decide) (by decide)⟩

/-- C6 fails as stated: in the sequence `Shutdown`, `Shutdown`, `close` on a fresh client
the second `Shutdown()` blocks, so `close()` is never run and the closed flag is never set. -/
theorem runCalls_two_shutdowns_then_close_blocks :
    runCalls [.callShutdown, .callShutdown, .callClose] NewClient = .blocks ∧
    ¬ ∃ c', runCalls [.callShutdown, .callShutdown, .callClose] NewClient = .ret c' ∧
      c'.closed = true := by
  have h : runCalls [.callShutdown, .callShutdown, .callClose] NewClient = .blocks := by decide
  refine ⟨h, ?_⟩
  rintro ⟨c', hc', _⟩
  rw [h] at hc'
  cases hc'

/-! ## Concurrent callers -/

theorem selectResponse_shrinks (ch : Chan Bytes) (arrival : Option Bytes) :
    (selectResponse ch arrival).2.cap = ch.cap ∧
    (selectResponse ch arrival).2.buf.length ≤ ch.buf.length := by
  unfold selectResponse
  cases hb : ch.buf with
  | nil =>
    by_cases hc : ch.closed = true <;> simp [hc, hb]
  | cons r rest => simp

theorem sendCommandSelect_channels (c c' : Client) (cmd resp : Bytes) (arrival : Option Bytes)
    (err : Option GoError) (h : sendCommandSelect c cmd arrival = .ret (c', resp, err)) :
    c'.commandsCh = c.commandsCh ∧
    c'.commandResponseCh = (selectResponse c.commandResponseCh arrival).2 := by
  unfold sendCommandSelect at h
  simp only [cmdFirstLine_eq, Exec.bind] at h
  rcases hsel : selectResponse c.commandResponseCh arrival with ⟨next, ch⟩
  rw [hsel] at h
  rcases next with _ | r
  · simp only [Exec.ret.injEq, Prod.mk.injEq] at h
    have h1 := h.1
    subst h1
    exact ⟨rfl, rfl⟩
  · by_cases hr : r = []
    · simp only [hr, if_true, Exec.ret.injEq, Prod.mk.injEq] at h
      have h1 := h.1
      subst h1
      exact ⟨rfl, rfl⟩
    · by_cases hp : HasPrefix r (lit "ERROR:") = true
      · simp only [hr, hp, if_true, if_false, Exec.ret.injEq, Prod.mk.injEq] at h
        have h1 := h.1
        subst h1
        exact ⟨rfl, rfl⟩
      · simp only [hr, hp, Bool.false_eq_true, if_false, Exec.ret.injEq, Prod.mk.injEq] at h
        have h1 := h.1
        subst h1
        exact ⟨rfl, rfl⟩

theorem step_ChannelsBounded (s s' : System) (a : Action) (h : step s a = some s')
    (hinv : ChannelsBounded s) : ChannelsBounded s' := by
  obtain ⟨hc1, hc2, hb1, hb2⟩ := hinv
  cases a with
  | enqueue i cmd =>
    simp only [step] at h
    split at h
    · cases h
    · split at h
      · rename_i q hq
        simp only [Option.some.injEq] at h
        subst h
        unfold Chan.send at hq
        split at hq
        · cases hq
        · split at hq
          · rename_i hroom
            simp only [Exec.ret.injEq] at hq
            subst hq
            refine ⟨hc1, hc2, ?_, hb2⟩
            simp only [List.length_append, List.length_singleton]
            omega
          · cases hq
      · cases h
    · cases h
  | respond r =>
    simp only [step] at h
    split at h
    · rename_i ch hch
      simp only [Option.some.injEq] at h
      subst h
      unfold Chan.send at hch
      split at hch
      · cases hch
      · split at hch
        · rename_i hroom
          simp only [Exec.ret.injEq] at hch
          subst hch
          refine ⟨hc1, hc2, hb1, ?_⟩
          simp only [List.length_append, List.length_singleton]
          omega
        · cases hch
    · cases h
  | resolve i =>
    simp only [step] at h
    split at h
    · split at h
      · rename_i c resp err hsel
        simp only [Option.some.injEq] at h
        subst h
        obtain ⟨h1, h2⟩ := sendCommandSelect_channels _ _ _ _ _ _ hsel
        obtain ⟨h3, h4⟩ := selectResponse_shrinks s.client.commandResponseCh none
        refine ⟨?_, ?_, ?_, ?_⟩
        · show c.commandsCh.cap = 10
          rw [h1]; exact hc1
        · show c.commandResponseCh.cap = 10
          rw [h2, h3]; exact hc2
        · show c.commandsCh.buf.length ≤ 10
          rw [h1]; exact hb1
        · show c.commandResponseCh.buf.length ≤ 10
          rw [h2]; omega
      · cases h
    · cases h
  | writerTake =>
    simp only [step] at h
    split at h
    · rename_i b rest hbuf
      simp only [Option.some.injEq] at h
      subst h
      refine ⟨hc1, hc2, ?_, hb2⟩
      show rest.length ≤ 10
      rw [hbuf] at hb1
      simp only [List.length_cons] at hb1
      omega
    · cases h

theorem run_ChannelsBounded (acts : List Action) (s s' : System) (h : run acts s = some s')
    (hinv : ChannelsBounded s) : ChannelsBounded s' := by
  induction acts generalizing s with
  | nil =>
    simp only [run, Option.some.injEq] at h
    subst h
    exact hinv
  | cons a rest ih =>
    simp only [run] at h
    cases hs : step s a with
    | none => rw [hs] at h; cases h
    | some s1 =>
      rw [hs] at h
      exact ih s1 h (step_ChannelsBounded s s1 a hs hinv)

theorem init_ChannelsBounded (n : Nat) : ChannelsBounded (System.init n) := by
  simp [ChannelsBounded, System.init, NewClient, Chan.make]

theorem enqueue_enabled_iff (s : System) (i : Nat) (cmd : Bytes) :
    (step s (.enqueue i cmd)).isSome = true ↔
      ((∃ p, s.callers.get? i = some p ∧ p.isWaiting = false) ∧
        s.client.commandsCh.closed = false ∧
        s.client.commandsCh.buf.length < s.client.commandsCh.cap) := by
  simp only [step]
  cases hp : s.callers.get? i with
  | none => simp
  | some p =>
    cases p with
    | waiting c => simp [Phase.isWaiting]
    | idle =>
      by_cases hcl : s.client.commandsCh.closed = true
      · simp [Chan.send, hcl, Phase.isWaiting]
      · by_cases hroom : s.client.commandsCh.buf.length < s.client.commandsCh.cap
        · simp [Chan.send, hcl, hroom, Phase.isWaiting]
        · simp [Chan.send, hcl, hroom, Phase.isWaiting]
    | resolved r e =>
      by_cases hcl : s.client.commandsCh.closed = true
      · simp [Chan.send, hcl, Phase.isWaiting]
      · by_cases hroom : s.client.commandsCh.buf.length < s.client.commandsCh.cap
        · simp [Chan.send, hcl, hroom, Phase.isWaiting]
        · simp [Chan.send, hcl, hroom, Phase.isWaiting]

theorem enqueue_resolve_is_SendCommand (s s1 s2 : System) (i : Nat) (cmd : Bytes)
    (h1 : step s (.enqueue i cmd) = some s1) (h2 : step s1 (.resolve i) = some s2) :
    ∃ resp err, SendCommand s.client cmd none = .ret (s2.client, resp, err) ∧
      s2.callers.get? i = some (.resolved resp err) := by
  simp only [step] at h1
  split at h1
  · cases h1
  · rename_i p hp hget
    split at h1
    · rename_i q hq
      simp only [Option.some.injEq] at h1
      subst h1
      have hi : i < s.callers.length := by
        rcases Nat.lt_or_ge i s.callers.length with h | h
        · exact h
        · rw [List.get?_eq_getElem?, List.getElem?_eq_none h] at hget
          cases hget
      have hw : (s.callers.set i (.waiting cmd)).get? i = some (.waiting cmd) := by
        simp [hi]
      simp only [step, hw] at h2
      split at h2
      · rename_i c resp err hsel
        simp only [Option.some.injEq] at h2
        subst h2
        refine ⟨resp, err, ?_, ?_⟩
        · simp only [SendCommand, hq, Exec.bind]
          exact hsel
        · simp [hi]
      · cases h2
    · cases h1
  · cases h1

/-- C8, as the code behaves: `SendCommand` does not serialise its callers. In the step system
of enqueue, respond, resolve and writer steps started from a fresh client, an enqueue step
followed by the resolve step of the same caller is one call of `SendCommand`; a caller may
enqueue whenever it is not already waiting and the outbound queue is open and holds fewer
than 10 commands, whatever the other callers are doing; and what is bounded in every
reachable state is the content of the channels: at most 10 commands in the outbound queue
and at most 10 responses in the response channel. -/
theorem SendCommand_callers_not_serialized (s : System) (hreach : Reachable s) :
    (s.client.commandsCh.buf.length ≤ 10 ∧ s.client.commandResponseCh.buf.length ≤ 10) ∧
    (∀ (i : Nat) (cmd : Bytes), (step s (.enqueue i cmd)).isSome = true ↔
      ((∃ p, s.callers.get? i = some p ∧ p.isWaiting = false) ∧
        s.client.commandsCh.closed = false ∧ s.client.commandsCh.buf.length < 10)) ∧
    (∀ (i : Nat) (cmd : Bytes) (s1 s2 : System), step s (.enqueue i cmd) = some s1 →
      step s1 (.resolve i) = some s2 →
      ∃ resp err, SendCommand s.client cmd none = .ret (s2.client, resp, err) ∧
        s2.callers.get? i = some (.resolved resp err)) := by
  obtain ⟨n, acts, hrun⟩ := hreach
  obtain ⟨hc1, _, hb1, hb2⟩ := run_ChannelsBounded acts _ s hrun (init_ChannelsBounded n)
  refine ⟨⟨hb1, hb2⟩, ?_, ?_⟩
  · intro i cmd
    rw [enqueue_enabled_iff, hc1]
  · intro i cmd s1 s2 h1 h2
    exact enqueue_resolve_is_SendCommand s s1 s2 i cmd h1 h2

/-- Witness of C8: the state after a first caller has enqueued `status` is reachable, and
the second caller may enqueue in it. -/
theorem SendCommand_callers_not_serialized_witness :
    Reachable oneWaiting ∧
    (step oneWaiting (.enqueue 1 (lit "version"))).isSome = true :=
  ⟨⟨2, [.enqueue 0 (lit "status")], by decide⟩,
    ((SendCommand_callers_not_serialized oneWaiting
        ⟨2, [.enqueue 0 (lit "status")], by decide⟩).2.1 1 (lit "version")).mpr
      ⟨⟨.idle, by decide, by decide⟩, by decide, by decide⟩⟩

/-- C8 fails as stated: two callers enqueue one after the other, before any response and
any timeout, and both are pending in the state reached. -/
theorem two_callers_pending :
    (run [.enqueue 0 (lit "status"), .enqueue 1 (lit "version")] (System.init 2)).map
        System.pending = some 2 ∧
    ¬ (∀ s, Reachable s → s.pending ≤ 1) := by
  have h : (run [.enqueue 0 (lit "status"), .enqueue 1 (lit "version")] (System.init 2)).map
      System.pending = some 2 := by decide
  refine ⟨h, ?_⟩
  intro hall
  cases hrun : run [.enqueue 0 (lit "status"), .enqueue 1 (lit "version")] (System.init 2) with
  | none => rw [hrun] at h; cases h
  | some s =>
    rw [hrun] at h
    have hp : s.pending = 2 := by simpa using h
    have := hall s ⟨2, _, hrun⟩
    omega

end OpenVPN
